import Mathlib

/-!
Shallow embedding of the gofluent generator (package `gen`, builder-API
generation for Go structs).  The embedding models the extraction pipeline of
the source file: `typeAttr` / `fieldAttr` records, `fillTypeAttr` (recursive
type-shape extraction with lazy package loading), `fillStructAttr`,
`findImplementations` (structural interface satisfaction), `fillHasBuilder`
(builder-need propagation), `collectImports` / `collectRequiredPkgs`
(import reconciliation), `getVariations` and the naming / initialization
logic of the emission templates (`withFuncTmpltStr`, `builderTmpltStr`),
plus `String()` and `InitString()` on `typeAttr`.

External collaborators (go/ast, go/types, golang.org/x/tools/go/packages,
text/template) are modelled as parameters:
  * a type expression (`ast.Expr`) is an inductive `Expr` covering exactly
    the shapes the extractor's switch distinguishes (`Ident`, `StarExpr`,
    `ArrayType`, `MapType`, `FuncType`) plus `other` for every expression
    the switch ignores (e.g. `SelectorExpr`, `StructType`);
  * `pkg.TypesInfo.Types[tExpr].Type` is a per-package partial function
    `resolve : Expr → Option NamedType`; `NamedType` carries what the code
    reads off a `*types.Named`: object name, declaring package (possibly
    nil), and whether the underlying type is a `*types.Interface`
    (identified by an opaque method-set id `Nat`);
  * `types.Implements` on a candidate struct (value and pointer shape) is a
    pair of Boolean functions of the method-set id carried by the struct
    declaration record;
  * `packages.Load` is `Env.load`, returning either loaded packages or an
    error string.
-/

namespace GoFluent

/-- Scalar fields of the source record `typeAttr`; defaults mirror the Go
zero value produced by `&typeAttr{}`. -/
structure AttrInfo where
  TypeName : String := ""
  PkgPath : String := ""
  PkgName : String := ""
  DefiningFile : String := ""
  IsPtr : Bool := false
  IsSlice : Bool := false
  IsMap : Bool := false
  IsStruct : Bool := false
  IsFunc : Bool := false
  IsIntf : Bool := false
  HasBuilder : Bool := false
deriving Repr, DecidableEq

/-- Scalar fields of the source record `fieldAttr` (its `ValType` pointer is
kept alongside in a pair inside `TypeAttr.StructFields`). -/
structure FieldMeta where
  StructName : String := ""
  FieldName : String := ""
  FuncSuffix : String := ""
deriving Repr, DecidableEq

/-- The source record `typeAttr`.  Child pointers (`SliceValType`,
`MapKeyType`, `MapValType`) are `Option`; the code allocates every child
fresh with `&typeAttr{}`, so the heap values form finite trees, which this
inductive captures. -/
inductive TypeAttr : Type where
  | node
    (info : AttrInfo)
    (SliceValType MapKeyType MapValType : Option TypeAttr)
    (FuncParamTypes FuncResultTypes : List TypeAttr)
    (StructFields : List (FieldMeta × TypeAttr))
    (Implementations : List TypeAttr)
deriving Repr

def TypeAttr.info : TypeAttr → AttrInfo
  | .node i _ _ _ _ _ _ _ => i

def TypeAttr.SliceValType : TypeAttr → Option TypeAttr
  | .node _ sv _ _ _ _ _ _ => sv

def TypeAttr.MapKeyType : TypeAttr → Option TypeAttr
  | .node _ _ mk _ _ _ _ _ => mk

def TypeAttr.MapValType : TypeAttr → Option TypeAttr
  | .node _ _ _ mv _ _ _ _ => mv

def TypeAttr.FuncParamTypes : TypeAttr → List TypeAttr
  | .node _ _ _ _ ps _ _ _ => ps

def TypeAttr.FuncResultTypes : TypeAttr → List TypeAttr
  | .node _ _ _ _ _ rs _ _ => rs

def TypeAttr.StructFields : TypeAttr → List (FieldMeta × TypeAttr)
  | .node _ _ _ _ _ _ sf _ => sf

def TypeAttr.Implementations : TypeAttr → List TypeAttr
  | .node _ _ _ _ _ _ _ im => im

def TypeAttr.TypeName (t : TypeAttr) : String := t.info.TypeName
def TypeAttr.PkgPath (t : TypeAttr) : String := t.info.PkgPath
def TypeAttr.PkgName (t : TypeAttr) : String := t.info.PkgName
def TypeAttr.IsPtr (t : TypeAttr) : Bool := t.info.IsPtr
def TypeAttr.IsSlice (t : TypeAttr) : Bool := t.info.IsSlice
def TypeAttr.IsMap (t : TypeAttr) : Bool := t.info.IsMap
def TypeAttr.IsStruct (t : TypeAttr) : Bool := t.info.IsStruct
def TypeAttr.IsFunc (t : TypeAttr) : Bool := t.info.IsFunc
def TypeAttr.IsIntf (t : TypeAttr) : Bool := t.info.IsIntf
def TypeAttr.HasBuilder (t : TypeAttr) : Bool := t.info.HasBuilder

/-- Field assignment `tAttr.X = v` on a scalar field of the record. -/
def TypeAttr.setInfo (f : AttrInfo → AttrInfo) : TypeAttr → TypeAttr
  | .node i sv mk mv ps rs sf im => .node (f i) sv mk mv ps rs sf im

/-- Field assignment `tAttr.IsPtr = true`. -/
def TypeAttr.setPtr (t : TypeAttr) : TypeAttr :=
  t.setInfo (fun a => { a with IsPtr := true })

def TypeAttr.setSliceValType (c : Option TypeAttr) : TypeAttr → TypeAttr
  | .node i _ mk mv ps rs sf im => .node i c mk mv ps rs sf im

def TypeAttr.setMapTypes (ck cv : Option TypeAttr) : TypeAttr → TypeAttr
  | .node i sv _ _ ps rs sf im => .node i sv ck cv ps rs sf im

def TypeAttr.setFuncParamTypes (cs : List TypeAttr) : TypeAttr → TypeAttr
  | .node i sv mk mv _ rs sf im => .node i sv mk mv cs rs sf im

def TypeAttr.setFuncResultTypes (cs : List TypeAttr) : TypeAttr → TypeAttr
  | .node i sv mk mv ps _ sf im => .node i sv mk mv ps cs sf im

def TypeAttr.setImplementations (im : List TypeAttr) : TypeAttr → TypeAttr
  | .node i sv mk mv ps rs sf _ => .node i sv mk mv ps rs sf im

/-- Append one entry to `StructFields` (the code's `append`). -/
def TypeAttr.pushField (p : FieldMeta × TypeAttr) : TypeAttr → TypeAttr
  | .node i sv mk mv ps rs sf im => .node i sv mk mv ps rs (sf ++ [p]) im

/-- The Go zero value `&typeAttr{}`. -/
def emptyAttr : TypeAttr := .node {} none none none [] [] [] []

/-- The source record `fieldAttr`. -/
structure FieldAttr where
  StructName : String := ""
  FieldName : String := ""
  FuncSuffix : String := ""
  ValType : TypeAttr

/-- View of a `StructFields` entry as a `fieldAttr`. -/
def FieldAttr.ofPair (p : FieldMeta × TypeAttr) : FieldAttr :=
  { StructName := p.1.StructName, FieldName := p.1.FieldName,
    FuncSuffix := p.1.FuncSuffix, ValType := p.2 }

/-- The `fieldAttr` list of a structure's attribute, as iterated by
`Generate` over `s.StructFields`. -/
def TypeAttr.fieldAttrs (t : TypeAttr) : List FieldAttr :=
  t.StructFields.map FieldAttr.ofPair

/-- Type expressions, covering exactly the cases distinguished by the
extractor's `switch`; `other` stands for any expression with no case
(selector expressions, struct type literals, ...), distinguished by a tag
so that `resolve` can tell instances apart. -/
inductive Expr : Type where
  | ident (name : String)
  | star (x : Expr)
  | array (elt : Expr)
  | map (key value : Expr)
  | func (params results : List Expr)
  | other (tag : Nat)
deriving Repr

/-- What the code reads off `nt.Obj().Pkg()`. -/
structure PkgInfo where
  path : String
  name : String
deriving Repr, DecidableEq

/-- What the code reads off a resolved `*types.Named`: the object name, the
declaring package (`nil` possible, e.g. for universe types like `error`),
and `some i` when `Underlying()` is a `*types.Interface` with method-set
id `i`. -/
structure NamedType where
  name : String
  pkg : Option PkgInfo
  intf : Option Nat

/-- One field group of a struct declaration (`ast.Field`): declared names
(empty for an embedded field) and the shared type expression. -/
structure FieldDecl where
  names : List String
  type : Expr

/-- A struct `ast.TypeSpec` found by `findStructsInPkg`, together with the
type-checker facts the resolver consults: scope lookup success and the
`types.Implements` tests for the value and pointer shapes against a
method-set id. -/
structure StructDecl where
  name : String
  definingFile : String
  fields : List FieldDecl
  implementsVal : Nat → Bool
  implementsPtr : Nat → Bool
  inScope : Bool := true

/-- A loaded `packages.Package`: `ID`, `Name`, the struct type specs of its
syntax trees in declaration order, and the `TypesInfo` resolution map. -/
structure Pkg where
  id : String
  name : String
  structs : List StructDecl
  resolve : Expr → Option NamedType

/-- The package-level mutable registries `pkgs` and `loadedPkgs`. -/
structure GState where
  pkgs : List Pkg
  loadedPkgs : List String

/-- The package loader `packages.Load` with its fixed config. -/
structure Env where
  load : List String → Except String (List Pkg)

/-- Return value of `fillTypeAttr`: the `(bool, error)` pair plus the
mutated attribute and registry state. -/
structure FillResult where
  ok : Bool
  err : Option String
  attr : TypeAttr
  st : GState

/-- Source `isNameExported`: `len(n) > 0 && unicode.IsUpper(rune(n[0]))`
(ASCII upper-case test suffices for the embedded alphabet). -/
def isNameExported (n : String) : Bool :=
  match n.data with
  | [] => false
  | c :: _ => c.isUpper

/-- Character-list infix test (models `strings.Contains`). -/
def listHasInfix (sub l : List Char) : Bool :=
  decide (sub <:+: l)

/-- Source `isInternalPkg`: `strings.Contains(p, "/internal/")`. -/
def isInternalPkg (p : String) : Bool :=
  listHasInfix "/internal/".toList p.toList

/-- Source `pkgNameFromPath` splits on "/" and keeps the last segment.
`splitOnChar` models `strings.Split` with a one-character separator: it
never returns an empty list, so the default of `getLastD` is dead. -/
def splitOnChar (c : Char) : List Char → List (List Char)
  | [] => [[]]
  | x :: xs =>
    let r := splitOnChar c xs
    if x = c then [] :: r
    else
      match r with
      | [] => [[x]]
      | h :: t => (x :: h) :: t

def pkgNameFromPath (p : String) : String :=
  String.mk ((splitOnChar '/' p.toList).getLastD [])

/-- Source `loadPkgs`: load packages, then register each package not yet in
`loadedPkgs` (appending to `pkgs` and marking its `ID` loaded). -/
def loadPkgs (env : Env) (paths : List String) (st : GState) :
    Option String × GState :=
  match env.load paths with
  | .error e => (some e, st)
  | .ok ps =>
    (none, ps.foldl (fun acc p =>
      if acc.loadedPkgs.contains p.id then acc
      else { pkgs := acc.pkgs ++ [p], loadedPkgs := acc.loadedPkgs ++ [p.id] }) st)

/-- Source `findExportedStructs` (with `findStructsInPkg` inlined as the
`structs` list of each package): every struct type spec with an exported
name, package by package, in declaration order. -/
def findExportedStructs (pkgs : List Pkg) : List (Pkg × StructDecl) :=
  pkgs.foldl (fun acc p =>
    acc ++ (p.structs.foldl (fun acc2 sd =>
      if isNameExported sd.name then acc2 ++ [(p, sd)] else acc2) [])) []

/-- The attribute `findImplementations` builds for a candidate struct
before testing satisfaction. -/
def baseStructAttr (p : Pkg) (sd : StructDecl) : TypeAttr :=
  .node { TypeName := sd.name, PkgPath := p.id, PkgName := p.name,
          DefiningFile := sd.definingFile, IsStruct := true }
    none none none [] [] [] []

/-- Source `findImplementations`: over the exported structs of the given
packages, keep every candidate whose value shape satisfies the interface,
else whose pointer shape does (then with `IsPtr` set).  The source also
calls `fillTypeAttr(sa.Pkg, sa.TypeSpec, tattr)` on the candidate's
`*ast.StructType` spec; that call hits no case of the extractor's switch
and a struct type literal never resolves to a `*types.Named`, so it leaves
`tattr` and the registries unchanged and is omitted here. -/
def findImplementations (pkgs : List Pkg) (intf : Nat) : List TypeAttr :=
  (findExportedStructs pkgs).foldl (fun acc pr =>
    if pr.2.inScope then
      let tattr := baseStructAttr pr.1 pr.2
      if pr.2.implementsVal intf then acc ++ [tattr]
      else if pr.2.implementsPtr intf then acc ++ [tattr.setPtr]
      else acc
    else acc) []

/-- Tail of `fillTypeAttr`'s named-type handling: the visibility check.
An unexported name whose underlying type is an interface routes to
`findImplementations` over the single resolving package and succeeds only
when at least one implementation was found; any other unexported name is
unusable. -/
def fillNamedVisibility (pkg : Pkg) (nt : NamedType) (tAttr : TypeAttr)
    (st : GState) : FillResult :=
  if isNameExported nt.name then ⟨true, none, tAttr, st⟩
  else
    match nt.intf with
    | some i =>
      let impls := findImplementations [pkg] i
      ⟨!impls.isEmpty, none,
        (tAttr.setInfo (fun a => { a with IsIntf := true })).setImplementations impls, st⟩
    | none => ⟨false, none, tAttr, st⟩

/-- The part of `fillTypeAttr` after its switch: if the expression resolves
to a named type, record name and declaring package, reject internal
packages, lazily load the declaring package if needed (propagating a load
error), then apply the visibility policy. -/
def fillNamed (env : Env) (pkg : Pkg) (tExpr : Expr) (tAttr : TypeAttr)
    (st : GState) : FillResult :=
  match pkg.resolve tExpr with
  | none => ⟨true, none, tAttr, st⟩
  | some nt =>
    let tAttr := tAttr.setInfo (fun a => { a with TypeName := nt.name })
    match nt.pkg with
    | some pi =>
      let tAttr := tAttr.setInfo (fun a => { a with PkgPath := pi.path, PkgName := pi.name })
      if isInternalPkg pi.path then ⟨false, none, tAttr, st⟩
      else if st.loadedPkgs.contains pi.path then fillNamedVisibility pkg nt tAttr st
      else
        match loadPkgs env [pi.path] st with
        | (some e, st') => ⟨false, some e, tAttr, st'⟩
        | (none, st') => fillNamedVisibility pkg nt tAttr st'
    | none => fillNamedVisibility pkg nt tAttr st

mutual
/-- Source `fillTypeAttr`.  The switch unwraps pointer into the same node,
recurses into fresh children for slice element, map key/value and function
parameters/results, then the named-type handling (`fillNamed`) runs on the
whole expression.  Note the `StarExpr` case: on a failed recursive call it
returns `(false, nil)`, discarding the recursive call's error. -/
def fillTypeAttr (env : Env) (pkg : Pkg) : Expr → TypeAttr → GState → FillResult
  | .ident n, tAttr, st =>
    fillNamed env pkg (.ident n) (tAttr.setInfo (fun a => { a with TypeName := n })) st
  | .star x, tAttr, st =>
    let r := fillTypeAttr env pkg x tAttr.setPtr st
    if !r.ok || r.err.isSome then ⟨false, none, r.attr, r.st⟩
    else fillNamed env pkg (.star x) r.attr r.st
  | .array elt, tAttr, st =>
    let tAttr := tAttr.setInfo (fun a => { a with IsSlice := true })
    let r := fillTypeAttr env pkg elt emptyAttr st
    let tAttr := tAttr.setSliceValType (some r.attr)
    if !r.ok || r.err.isSome then ⟨false, r.err, tAttr, r.st⟩
    else fillNamed env pkg (.array elt) tAttr r.st
  | .map kE vE, tAttr, st =>
    let tAttr := tAttr.setInfo (fun a => { a with IsMap := true })
    let rk := fillTypeAttr env pkg kE emptyAttr st
    if !rk.ok || rk.err.isSome then
      ⟨false, rk.err, tAttr.setMapTypes (some rk.attr) (some emptyAttr), rk.st⟩
    else
      let rv := fillTypeAttr env pkg vE emptyAttr rk.st
      let tAttr := tAttr.setMapTypes (some rk.attr) (some rv.attr)
      if !rv.ok || rv.err.isSome then ⟨false, rv.err, tAttr, rv.st⟩
      else fillNamed env pkg (.map kE vE) tAttr rv.st
  | .func ps rs, tAttr, st =>
    let tAttr := tAttr.setInfo (fun a => { a with IsFunc := true, })
    let rp := fillFieldList env pkg ps st
    let tAttr := tAttr.setFuncParamTypes rp.1
    if !rp.2.1 || rp.2.2.1.isSome then ⟨false, rp.2.2.1, tAttr, rp.2.2.2⟩
    else
      let rr := fillFieldList env pkg rs rp.2.2.2
      let tAttr := tAttr.setFuncResultTypes rr.1
      if !rr.2.1 || rr.2.2.1.isSome then ⟨false, rr.2.2.1, tAttr, rr.2.2.2⟩
      else fillNamed env pkg (.func ps rs) tAttr rr.2.2.2
  | .other tag, tAttr, st => fillNamed env pkg (.other tag) tAttr st
termination_by structural e _ _ => e

/-- The parameter/result loops of the `FuncType` case: fill each field type
into a fresh attribute, stopping at the first failure (the successfully
filled prefix has been appended already, as in the source). -/
def fillFieldList (env : Env) (pkg : Pkg) :
    List Expr → GState → List TypeAttr × Bool × Option String × GState
  | [], st => ([], true, none, st)
  | e :: rest, st =>
    let r := fillTypeAttr env pkg e emptyAttr st
    if !r.ok || r.err.isSome then ([], false, r.err, r.st)
    else
      let rest' := fillFieldList env pkg rest r.st
      (r.attr :: rest'.1, rest'.2)
termination_by structural es _ => es
end

/-- Source `fillStructAttr`: extract each field's type; on `!ok || err`
return `err` immediately (so an unusable field ends the loop and the
remaining fields are never examined); otherwise append one `fieldAttr` for
an embedded field (named by the type name) or one per exported declared
name. -/
def fillStructAttr (env : Env) (pkg : Pkg) :
    List FieldDecl → TypeAttr → GState → Option String × TypeAttr × GState
  | [], sAttr, st => (none, sAttr, st)
  | f :: rest, sAttr, st =>
    let r := fillTypeAttr env pkg f.type emptyAttr st
    if !r.ok || r.err.isSome then (r.err, sAttr, r.st)
    else
      let sAttr :=
        if f.names.isEmpty then
          sAttr.pushField ({ StructName := sAttr.TypeName, FieldName := r.attr.TypeName }, r.attr)
        else
          f.names.foldl (fun s n =>
            if isNameExported n then
              s.pushField ({ StructName := s.TypeName, FieldName := n }, r.attr)
            else s) sAttr
      fillStructAttr env pkg rest sAttr r.st

/-- The generation-set membership test of `fillHasBuilder`'s double loop
over the `toGenerate` map: some selected structure has this type name. -/
def inGenSet (m : List (String × List TypeAttr)) (name : String) : Bool :=
  m.any (fun g => g.2.any (fun ta => ta.TypeName == name))

mutual
/-- Source `fillHasBuilder`: mark the node when it has `IsStruct` set and
its type name matches a structure selected for generation, then recurse
through map key/value, slice element, function parameter/result,
struct-field and implementation children.  The source mutates shared nodes
in place; since the mark only reads `IsStruct` and `TypeName` (never
mutated by the pass) the functional rebuild is equivalent. -/
def fillHasBuilder (m : List (String × List TypeAttr)) : TypeAttr → TypeAttr
  | .node i sv mk mv ps rs sf im =>
    let i' := if i.IsStruct && inGenSet m i.TypeName then { i with HasBuilder := true } else i
    .node i' (fillHasBuilderO m sv) (fillHasBuilderO m mk) (fillHasBuilderO m mv)
      (fillHasBuilderL m ps) (fillHasBuilderL m rs) (fillHasBuilderF m sf)
      (fillHasBuilderL m im)

/-- Nil-guarded recursion of `fillHasBuilder` into an optional child. -/
def fillHasBuilderO (m : List (String × List TypeAttr)) :
    Option TypeAttr → Option TypeAttr
  | none => none
  | some t => some (fillHasBuilder m t)

/-- Recursion of `fillHasBuilder` over a child list. -/
def fillHasBuilderL (m : List (String × List TypeAttr)) :
    List TypeAttr → List TypeAttr
  | [] => []
  | t :: ts => fillHasBuilder m t :: fillHasBuilderL m ts

/-- Recursion of `fillHasBuilder` over `StructFields` (through `ValType`). -/
def fillHasBuilderF (m : List (String × List TypeAttr)) :
    List (FieldMeta × TypeAttr) → List (FieldMeta × TypeAttr)
  | [] => []
  | (fm, t) :: ts => (fm, fillHasBuilder m t) :: fillHasBuilderF m ts
end

/-- The propagation pass of `Generate`: `fillHasBuilder(s, toGenerate)` for
every selected structure of every package. -/
def propagate (toGenerate : List (String × List TypeAttr)) :
    List (String × List TypeAttr) :=
  toGenerate.map (fun g => (g.1, g.2.map (fillHasBuilder toGenerate)))

mutual
/-- Every `typeAttr` node reachable from a root by following slice, map,
function, struct-field and implementation children (the root included):
the nodes the propagation pass can visit. -/
def allNodes : TypeAttr → List TypeAttr
  | .node i sv mk mv ps rs sf im =>
    .node i sv mk mv ps rs sf im ::
      (allNodesO sv ++ allNodesO mk ++ allNodesO mv ++ allNodesL ps ++
        allNodesL rs ++ allNodesF sf ++ allNodesL im)

def allNodesO : Option TypeAttr → List TypeAttr
  | none => []
  | some t => allNodes t

def allNodesL : List TypeAttr → List TypeAttr
  | [] => []
  | t :: ts => allNodes t ++ allNodesL ts

def allNodesF : List (FieldMeta × TypeAttr) → List TypeAttr
  | [] => []
  | (_, t) :: ts => allNodes t ++ allNodesF ts
end

/-- Source `getVariations`: an interface-typed field expands to one copy
per implementation, the function suffix separating the implementation's
type name with an underscore; any other field stands for itself. -/
def getVariations (f : FieldAttr) : List FieldAttr :=
  if f.ValType.IsIntf then
    f.ValType.Implementations.foldl (fun v ta =>
      v ++ [{ StructName := f.StructName, FieldName := f.FieldName,
              FuncSuffix := "_" ++ ta.TypeName, ValType := ta }]) []
  else [f]

/-- Setter name rendered by `withFuncTmpltStr`:
`With{{ .FieldName }}{{ .FuncSuffix }}`. -/
def withFuncName (f : FieldAttr) : String :=
  "With" ++ f.FieldName ++ f.FuncSuffix

/-- The setter names `Generate` emits for one field: one "with" setter per
variation, plus an "add" setter for a slice field or a "put" setter for a
map field (`addFuncTmpltStr`, `putFuncTmpltStr`). -/
def fieldSetterNames (f : FieldAttr) : List String :=
  (getVariations f).map withFuncName ++
    (if f.ValType.IsSlice then ["Add" ++ f.FieldName]
     else if f.ValType.IsMap then ["Put" ++ f.FieldName]
     else [])

mutual
/-- Source method `String()` on `typeAttr`, rendering the Go syntax of the
type under the alias table `pkgKeys : PkgPath → alias` (an association
list here).  A nil child dereference is a crash in Go and unreachable for
extracted attributes; it renders as "" here. -/
def TypeAttr.string (k : List (String × String)) : TypeAttr → String
  | .node i sv mk mv ps rs _ _ =>
    let s := if i.IsPtr then "*" else ""
    if i.IsSlice then s ++ "[]" ++ TypeAttr.stringO k sv
    else if i.IsMap then
      s ++ "map[" ++ TypeAttr.stringO k mk ++ "]" ++ TypeAttr.stringO k mv
    else if i.IsFunc then
      s ++ "func(" ++ TypeAttr.stringL k ps ++ ")" ++ "(" ++ TypeAttr.stringL k rs ++ ")"
    else if i.HasBuilder then
      (if !i.IsPtr then "*" ++ s else s) ++ i.TypeName ++ "Builder"
    else
      s ++
        (if i.PkgPath ≠ "" then
          match (k.find? (fun q => q.1 == i.PkgPath)).map Prod.snd with
          | some pre => pre ++ "."
          | none => ""
        else "") ++ i.TypeName

def TypeAttr.stringO (k : List (String × String)) : Option TypeAttr → String
  | none => ""
  | some t => TypeAttr.string k t

/-- The comma-joining loops over parameter and result types. -/
def TypeAttr.stringL (k : List (String × String)) : List TypeAttr → String
  | [] => ""
  | [t] => TypeAttr.string k t
  | t :: t2 :: ts => TypeAttr.string k t ++ "," ++ TypeAttr.stringL k (t2 :: ts)
end

/-- Source method `InitString()` on `typeAttr`: empty unless the attribute
is slice- or map-shaped; otherwise the rendered type (with `&` replacing a
leading `*` for pointers — byte slicing `[1:]` is `String.drop 1` here)
followed by an empty composite literal. -/
def TypeAttr.InitString (k : List (String × String)) (t : TypeAttr) : String :=
  if !t.IsSlice && !t.IsMap then ""
  else
    (if t.IsPtr then "&" ++ (t.string k).drop 1 else t.string k) ++ "\x7b\x7d"

/-- The field-initialization lines of the constructor rendered by
`builderTmpltStr`: one `b.s.F = init` line per struct field whose type is
slice- or map-shaped, in field order. -/
def ctorInitLines (k : List (String × String)) (s : TypeAttr) :
    List (String × String) :=
  s.fieldAttrs.foldl (fun acc f =>
    if f.ValType.IsSlice || f.ValType.IsMap then
      acc ++ [(f.FieldName, f.ValType.InitString k)]
    else acc) []

/-- Set insertion for a Go `map[string]bool` modelled as a list without
duplicates (keeps first-insertion order). -/
def insertSet (l : List String) (s : String) : List String :=
  if l.contains s then l else l ++ [s]

mutual
/-- Source `collectRequiredPkgsHelper`: record the node's `PkgPath` when
nonempty, then recurse through all children. -/
def collectRequiredPkgsHelper (t : TypeAttr) (m : List String) : List String :=
  match t with
  | .node i sv mk mv ps rs sf im =>
    let m := if i.PkgPath ≠ "" then insertSet m i.PkgPath else m
    collectRequiredPkgsL im
      (collectRequiredPkgsF sf
        (collectRequiredPkgsL rs
          (collectRequiredPkgsL ps
            (collectRequiredPkgsO mv
              (collectRequiredPkgsO mk
                (collectRequiredPkgsO sv m))))))

def collectRequiredPkgsO (c : Option TypeAttr) (m : List String) : List String :=
  match c with
  | none => m
  | some t => collectRequiredPkgsHelper t m

def collectRequiredPkgsL (cs : List TypeAttr) (m : List String) : List String :=
  match cs with
  | [] => m
  | t :: ts => collectRequiredPkgsL ts (collectRequiredPkgsHelper t m)

def collectRequiredPkgsF (cs : List (FieldMeta × TypeAttr)) (m : List String) :
    List String :=
  match cs with
  | [] => m
  | (_, t) :: ts => collectRequiredPkgsF ts (collectRequiredPkgsHelper t m)
end

/-- Source `collectRequiredPkgs`: the set of package identifiers referenced
anywhere in the forest (one enumeration order of the Go set). -/
def collectRequiredPkgs (ts : List TypeAttr) : List String :=
  ts.foldl (fun m t => collectRequiredPkgsHelper t m) []

/-- The grouping loop of `collectImports`: `m[pkgNameFromPath v][v] = true`.
Groups are kept in first-encounter order; members in insertion order. -/
def addToGroups (m : List (String × List String)) (key v : String) :
    List (String × List String) :=
  if m.any (fun g => g.1 == key) then
    m.map (fun g => if g.1 == key then (g.1, insertSet g.2 v) else g)
  else m ++ [(key, [v])]

def groupByKey (paths : List String) : List (String × List String) :=
  paths.foldl (fun m v => addToGroups m (pkgNameFromPath v) v) []

/-- The alias-assignment loop of `collectImports` for one segment group,
with the running counter `i` made explicit: the member at counter 0 gets
the bare segment, the member at counter i > 0 gets `segment_i`
(`fmt.Sprintf("%s_%d", pkgKey, i)`). -/
def assignAliasesFrom (key : String) : Nat → List String → List (String × String)
  | _, [] => []
  | i, v :: vs =>
    (if i = 0 then key else key ++ "_" ++ toString i, v) :: assignAliasesFrom key (i + 1) vs

def assignAliases (g : String × List String) : List (String × String) :=
  assignAliasesFrom g.1 0 g.2

/-- Assignment into the Go map `ret`: overwrite on an existing key. -/
def mapInsert (ret : List (String × String)) (p : String × String) :
    List (String × String) :=
  if ret.any (fun q => q.1 == p.1) then
    ret.map (fun q => if q.1 == p.1 then p else q)
  else ret ++ [p]

/-- Source `collectImports` as a function of one enumeration order of the
referenced-identifier set (Go map iteration order is unspecified, so the
order is a parameter): group identifiers by final path segment, assign the
bare segment to the first member of each group and suffixed segments to
the rest, and store each pair into the alias map. -/
def collectImports (paths : List String) : List (String × String) :=
  ((groupByKey paths).foldl (fun acc g => acc ++ assignAliases g) []).foldl
    mapInsert []

mutual
/-- Fuel-indexed variant of `fillTypeAttr`; one unit of fuel per level of
recursion, `none` when the fuel runs out before the walk completes. -/
def fillTypeAttrFuel (env : Env) (pkg : Pkg) :
    Nat → Expr → TypeAttr → GState → Option FillResult
  | 0, _, _, _ => none
  | _ + 1, .ident n, tAttr, st =>
    some (fillNamed env pkg (.ident n)
      (tAttr.setInfo (fun a => { a with TypeName := n })) st)
  | fuel + 1, .star x, tAttr, st =>
    match fillTypeAttrFuel env pkg fuel x tAttr.setPtr st with
    | none => none
    | some r =>
      some (if !r.ok || r.err.isSome then ⟨false, none, r.attr, r.st⟩
            else fillNamed env pkg (.star x) r.attr r.st)
  | fuel + 1, .array elt, tAttr, st =>
    let tAttr := tAttr.setInfo (fun a => { a with IsSlice := true })
    match fillTypeAttrFuel env pkg fuel elt emptyAttr st with
    | none => none
    | some r =>
      let tAttr := tAttr.setSliceValType (some r.attr)
      some (if !r.ok || r.err.isSome then ⟨false, r.err, tAttr, r.st⟩
            else fillNamed env pkg (.array elt) tAttr r.st)
  | fuel + 1, .map kE vE, tAttr, st =>
    let tAttr := tAttr.setInfo (fun a => { a with IsMap := true })
    match fillTypeAttrFuel env pkg fuel kE emptyAttr st with
    | none => none
    | some rk =>
      if !rk.ok || rk.err.isSome then
        some ⟨false, rk.err, tAttr.setMapTypes (some rk.attr) (some emptyAttr), rk.st⟩
      else
        match fillTypeAttrFuel env pkg fuel vE emptyAttr rk.st with
        | none => none
        | some rv =>
          let tAttr := tAttr.setMapTypes (some rk.attr) (some rv.attr)
          some (if !rv.ok || rv.err.isSome then ⟨false, rv.err, tAttr, rv.st⟩
                else fillNamed env pkg (.map kE vE) tAttr rv.st)
  | fuel + 1, .func ps rs, tAttr, st =>
    let tAttr := tAttr.setInfo (fun a => { a with IsFunc := true })
    match fillFieldListFuel env pkg fuel ps st with
    | none => none
    | some rp =>
      let tAttr := tAttr.setFuncParamTypes rp.1
      if !rp.2.1 || rp.2.2.1.isSome then some ⟨false, rp.2.2.1, tAttr, rp.2.2.2⟩
      else
        match fillFieldListFuel env pkg fuel rs rp.2.2.2 with
        | none => none
        | some rr =>
          let tAttr := tAttr.setFuncResultTypes rr.1
          some (if !rr.2.1 || rr.2.2.1.isSome then ⟨false, rr.2.2.1, tAttr, rr.2.2.2⟩
                else fillNamed env pkg (.func ps rs) tAttr rr.2.2.2)
  | _ + 1, .other tag, tAttr, st => some (fillNamed env pkg (.other tag) tAttr st)
termination_by fuel e _ _ => (fuel, 0, sizeOf e)

/-- Fuel-indexed variant of `fillFieldList`; the loop passes the same fuel
to each element (the loop itself adds no recursion depth). -/
def fillFieldListFuel (env : Env) (pkg : Pkg) :
    Nat → List Expr → GState → Option (List TypeAttr × Bool × Option String × GState)
  | _, [], st => some ([], true, none, st)
  | fuel, e :: rest, st =>
    match fillTypeAttrFuel env pkg fuel e emptyAttr st with
    | none => none
    | some r =>
      if !r.ok || r.err.isSome then some ([], false, r.err, r.st)
      else
        match fillFieldListFuel env pkg fuel rest r.st with
        | none => none
        | some rest' => some (r.attr :: rest'.1, rest'.2)
termination_by fuel es _ => (fuel, 1, sizeOf es)
end

mutual
/-- Fuel-indexed variant of `fillHasBuilder`. -/
def fillHasBuilderFuel (m : List (String × List TypeAttr)) :
    Nat → TypeAttr → Option TypeAttr
  | 0, _ => none
  | fuel + 1, .node i sv mk mv ps rs sf im =>
    let i' := if i.IsStruct && inGenSet m i.TypeName then { i with HasBuilder := true } else i
    match fillHasBuilderFuelO m fuel sv, fillHasBuilderFuelO m fuel mk,
        fillHasBuilderFuelO m fuel mv, fillHasBuilderFuelL m fuel ps,
        fillHasBuilderFuelL m fuel rs, fillHasBuilderFuelF m fuel sf,
        fillHasBuilderFuelL m fuel im with
    | some sv', some mk', some mv', some ps', some rs', some sf', some im' =>
      some (.node i' sv' mk' mv' ps' rs' sf' im')
    | _, _, _, _, _, _, _ => none
termination_by fuel _ => (fuel, 0, 0)

def fillHasBuilderFuelO (m : List (String × List TypeAttr)) :
    Nat → Option TypeAttr → Option (Option TypeAttr)
  | _, none => some none
  | fuel, some t => (fillHasBuilderFuel m fuel t).map some
termination_by fuel c => (fuel, 1, sizeOf c)

def fillHasBuilderFuelL (m : List (String × List TypeAttr)) :
    Nat → List TypeAttr → Option (List TypeAttr)
  | _, [] => some []
  | fuel, t :: ts =>
    match fillHasBuilderFuel m fuel t, fillHasBuilderFuelL m fuel ts with
    | some t', some ts' => some (t' :: ts')
    | _, _ => none
termination_by fuel cs => (fuel, 1, sizeOf cs)

def fillHasBuilderFuelF (m : List (String × List TypeAttr)) :
    Nat → List (FieldMeta × TypeAttr) → Option (List (FieldMeta × TypeAttr))
  | _, [] => some []
  | fuel, (fm, t) :: ts =>
    match fillHasBuilderFuel m fuel t, fillHasBuilderFuelF m fuel ts with
    | some t', some ts' => some ((fm, t') :: ts')
    | _, _ => none
termination_by fuel cs => (fuel, 1, sizeOf cs)
end

/-! Small accessor lemmas used throughout the proofs. -/

@[simp] theorem info_node (i : AttrInfo) (sv mk mv : Option TypeAttr)
    (ps rs : List TypeAttr) (sf : List (FieldMeta × TypeAttr)) (im : List TypeAttr) :
    (TypeAttr.node i sv mk mv ps rs sf im).info = i := rfl

@[simp] theorem implementations_node (i : AttrInfo) (sv mk mv : Option TypeAttr)
    (ps rs : List TypeAttr) (sf : List (FieldMeta × TypeAttr)) (im : List TypeAttr) :
    (TypeAttr.node i sv mk mv ps rs sf im).Implementations = im := rfl

@[simp] theorem setInfo_node (f : AttrInfo → AttrInfo) (i : AttrInfo)
    (sv mk mv : Option TypeAttr) (ps rs : List TypeAttr)
    (sf : List (FieldMeta × TypeAttr)) (im : List TypeAttr) :
    (TypeAttr.node i sv mk mv ps rs sf im).setInfo f = .node (f i) sv mk mv ps rs sf im := rfl

@[simp] theorem setImplementations_node (js : List TypeAttr) (i : AttrInfo)
    (sv mk mv : Option TypeAttr) (ps rs : List TypeAttr)
    (sf : List (FieldMeta × TypeAttr)) (im : List TypeAttr) :
    (TypeAttr.node i sv mk mv ps rs sf im).setImplementations js =
      .node i sv mk mv ps rs sf js := rfl

@[simp] theorem implementations_setInfo (f : AttrInfo → AttrInfo) (t : TypeAttr) :
    (t.setInfo f).Implementations = t.Implementations := by
  cases t; rfl

@[simp] theorem implementations_setImplementations (js : List TypeAttr)
    (t : TypeAttr) : (t.setImplementations js).Implementations = js := by
  cases t; rfl

/-! Fixture for the claim on per-field unusability (and its companion on
error propagation): a package whose `hidden` type is unexported and not an
interface, whose `Good` type is exported, and whose `Ext` type lives in a
package that fails to load. -/

def envLoadErr : Env := ⟨fun _ => .error "load failed"⟩

def pkgFieldFx : Pkg :=
  { id := "example.com/a", name := "a", structs := [],
    resolve := fun e =>
      match e with
      | .ident "hidden" => some ⟨"hidden", some ⟨"example.com/a", "a"⟩, none⟩
      | .ident "Good" => some ⟨"Good", some ⟨"example.com/a", "a"⟩, none⟩
      | .ident "Ext" => some ⟨"Ext", some ⟨"example.com/ext", "ext"⟩, none⟩
      | _ => none }

def stFieldFx : GState := ⟨[pkgFieldFx], ["example.com/a"]⟩

def sRootFx : TypeAttr :=
  .node { TypeName := "S", PkgPath := "example.com/a", PkgName := "a", IsStruct := true }
    none none none [] [] [] []

def fieldsFx : List FieldDecl :=
  [⟨["Bad"], .ident "hidden"⟩, ⟨["Good"], .ident "Good"⟩]

/-- C1: the claim says a per-field usability failure drops only that field
and every subsequent usable field still appears.  In the code,
`fillStructAttr` returns as soon as `fillTypeAttr` reports `!ok` (with a
nil error), so extraction of the owning structure stops at the unusable
field: with field list `[Bad hidden; Good Good]` the builder's field list
is empty and no error is raised, although the `Good` field alone extracts
fine.  This contradicts the per-field-drop contract (the earlier revision
of this generator used `continue` here). -/
theorem C1_unusable_field_ends_struct_loop :
    (fillStructAttr envLoadErr pkgFieldFx fieldsFx sRootFx stFieldFx).1 = none ∧
    (fillStructAttr envLoadErr pkgFieldFx fieldsFx sRootFx stFieldFx).2.1.StructFields = [] ∧
    (fillStructAttr envLoadErr pkgFieldFx [⟨["Good"], .ident "Good"⟩] sRootFx
        stFieldFx).2.1.StructFields.map (fun p => p.1.FieldName) = ["Good"] :=
  ⟨rfl, rfl, rfl⟩

/-- C5: the claim says a package load failure reached through a
pointer-wrapped field type aborts the run as a hard error.  In the code
the `StarExpr` case of `fillTypeAttr` returns `(false, nil)` when its
recursive call fails, discarding the load error its recursive call
produced (every sibling case returns `(false, err)`): extracting `Ext`
directly surfaces the load error, extracting `*Ext` loses it, and
`fillStructAttr` on a struct with a `*Ext` field then returns a nil
error, so the run continues with the field silently dropped. -/
theorem C5_star_case_swallows_load_error :
    (fillTypeAttr envLoadErr pkgFieldFx (.ident "Ext") emptyAttr stFieldFx).err =
      some "load failed" ∧
    (fillTypeAttr envLoadErr pkgFieldFx (.star (.ident "Ext")) emptyAttr stFieldFx).err =
      none ∧
    (fillTypeAttr envLoadErr pkgFieldFx (.star (.ident "Ext")) emptyAttr stFieldFx).ok =
      false ∧
    (fillStructAttr envLoadErr pkgFieldFx [⟨["P"], .star (.ident "Ext")⟩] sRootFx
        stFieldFx).1 = none :=
  ⟨rfl, rfl, rfl, rfl⟩

/-! Fixture for the interface-field setter claim: the `Payer` scenario. -/

def payerCC : TypeAttr :=
  .node { TypeName := "CreditCard", PkgPath := "m/pay", PkgName := "pay", IsStruct := true }
    none none none [] [] [] []

def payerCash : TypeAttr :=
  .node { TypeName := "Cash", PkgPath := "m/pay", PkgName := "pay", IsStruct := true }
    none none none [] [] [] []

def payerAttr : TypeAttr :=
  .node { TypeName := "payer", PkgPath := "m/pay", PkgName := "pay", IsIntf := true }
    none none none [] [] [] [payerCC, payerCash]

def payerField : FieldAttr :=
  { StructName := "Order", FieldName := "Payer", ValType := payerAttr }

/-- C3: for an interface-typed field whose interface resolved to
implementations `[A, B]`, emission renders exactly two "with" setters,
named `With` + field name + `_` + implementation type name (one per
implementation), and no generic `With` + field name setter. -/
theorem C3_interface_field_setters (f : FieldAttr) (A B : TypeAttr)
    (hIntf : f.ValType.IsIntf = true)
    (hImpls : f.ValType.Implementations = [A, B])
    (hSlice : f.ValType.IsSlice = false) (hMap : f.ValType.IsMap = false) :
    fieldSetterNames f =
      ["With" ++ f.FieldName ++ "_" ++ A.TypeName,
       "With" ++ f.FieldName ++ "_" ++ B.TypeName] ∧
    ("With" ++ f.FieldName) ∉ fieldSetterNames f := by
  have hmain : fieldSetterNames f =
      ["With" ++ f.FieldName ++ "_" ++ A.TypeName,
       "With" ++ f.FieldName ++ "_" ++ B.TypeName] := by
    simp [fieldSetterNames, getVariations, hIntf, hImpls, hSlice, hMap, withFuncName]
    constructor <;> simp [String.append_assoc]
  refine ⟨hmain, ?_⟩
  rw [hmain]
  intro hmem
  have hu : ("_" : String).length = 1 := rfl
  rcases List.mem_cons.mp hmem with h | h
  · have hl := congrArg String.length h
    simp only [String.length_append] at hl
    omega
  · rcases List.mem_cons.mp h with h2 | h2
    · have hl := congrArg String.length h2
      simp only [String.length_append] at hl
      omega
    · simp at h2

/-- Witness for the interface-field setter claim at the `Order.Payer`
scenario with implementations `CreditCard` and `Cash`. -/
theorem C3_interface_field_setters_witness :
    fieldSetterNames payerField =
      ["With" ++ "Payer" ++ "_" ++ "CreditCard", "With" ++ "Payer" ++ "_" ++ "Cash"] ∧
    ("With" ++ "Payer") ∉ fieldSetterNames payerField :=
  C3_interface_field_setters payerField payerCC payerCash rfl rfl rfl rfl

theorem append_braces_ne_empty (u : String) : u ++ "\x7b\x7d" ≠ "" := by
  intro h
  have hl := congrArg String.length h
  simp only [String.length_append] at hl
  have h2 : ("\x7b\x7d" : String).length = 2 := rfl
  have h0 : ("" : String).length = 0 := rfl
  omega

theorem foldl_if_append_eq {α β : Type} (P : α → Bool) (g : α → β) :
    ∀ (l : List α) (acc : List β),
      l.foldl (fun acc2 x => if P x then acc2 ++ [g x] else acc2) acc =
        acc ++ (l.filter P).map g
  | [], acc => by simp
  | x :: xs, acc => by
    simp only [List.foldl_cons, List.filter_cons]
    by_cases h : P x = true
    · rw [if_pos h, if_pos h, foldl_if_append_eq P g xs (acc ++ [g x]), List.map_cons]
      simp
    · rw [if_neg h, if_neg h, foldl_if_append_eq P g xs acc]

/-- C7: `InitString` yields a nonempty literal terminated by an empty
composite literal exactly when the attribute is slice- or map-shaped, and
the empty string otherwise; accordingly the rendered constructor contains
one initialization line per slice- or map-shaped field and none for any
other field. -/
theorem C7_container_fields_initialized (k : List (String × String)) (t s : TypeAttr) :
    (if (t.IsSlice || t.IsMap) = true
      then t.InitString k ≠ "" ∧ ∃ u, t.InitString k = u ++ "\x7b\x7d"
      else t.InitString k = "") ∧
    ctorInitLines k s =
      (s.fieldAttrs.filter (fun f => f.ValType.IsSlice || f.ValType.IsMap)).map
        (fun f => (f.FieldName, f.ValType.InitString k)) := by
  constructor
  · cases hS : t.IsSlice <;> cases hM : t.IsMap
    · rw [if_neg (by simp [hS, hM])]
      unfold TypeAttr.InitString
      rw [if_pos (by simp [hS, hM])]
    · rw [if_pos (by simp [hS, hM])]
      unfold TypeAttr.InitString
      rw [if_neg (by simp [hS, hM])]
      exact ⟨append_braces_ne_empty _, ⟨_, rfl⟩⟩
    · rw [if_pos (by simp [hS, hM])]
      unfold TypeAttr.InitString
      rw [if_neg (by simp [hS, hM])]
      exact ⟨append_braces_ne_empty _, ⟨_, rfl⟩⟩
    · rw [if_pos (by simp [hS, hM])]
      unfold TypeAttr.InitString
      rw [if_neg (by simp [hS, hM])]
      exact ⟨append_braces_ne_empty _, ⟨_, rfl⟩⟩
  · unfold ctorInitLines
    rw [foldl_if_append_eq]
    simp

/-! Fixture for the interface-resolver scope claim: two loaded packages,
each holding one exported structure satisfying method set `7`; the
interface-typed field resolves in the first package. -/

def implDeclA : StructDecl :=
  { name := "Impl1", definingFile := "a.go", fields := [],
    implementsVal := fun j => j == 7, implementsPtr := fun _ => false }

def implDeclB : StructDecl :=
  { name := "Impl2", definingFile := "b.go", fields := [],
    implementsVal := fun j => j == 7, implementsPtr := fun _ => false }

def pkgIntfA : Pkg :=
  { id := "m/a", name := "a", structs := [implDeclA],
    resolve := fun e =>
      match e with
      | .ident "payer" => some ⟨"payer", some ⟨"m/a", "a"⟩, some 7⟩
      | _ => none }

def pkgIntfB : Pkg :=
  { id := "m/b", name := "b", structs := [implDeclB], resolve := fun _ => none }

def stIntf : GState := ⟨[pkgIntfA, pkgIntfB], ["m/a", "m/b"]⟩

/-- C4 counterexample: the claim says the resolver returns every exported
structure across the current package set.  With packages `m/a` and `m/b`
both loaded, `m/b` containing the exported satisfying structure `Impl2`,
the interface field resolved in `m/a` receives only `Impl1`:
`fillTypeAttr` invokes `findImplementations` with the single resolving
package, although the same resolver run over the loaded package set would
also return `Impl2`. -/
theorem C4_resolver_misses_other_packages :
    ((fillTypeAttr envLoadErr pkgIntfA (.ident "payer") emptyAttr
        stIntf).attr.Implementations.map TypeAttr.TypeName) = ["Impl1"] ∧
    ((findImplementations stIntf.pkgs 7).map TypeAttr.TypeName) = ["Impl1", "Impl2"] :=
  ⟨rfl, rfl⟩

/-- C4 (amended): for an interface-shaped field the resolver itself scans
whatever packages it is handed, but `fillTypeAttr` hands it only the
field's resolving package, so the implementations recorded on the field
are exactly `findImplementations` over that one package. -/
theorem C4_resolver_scans_resolving_package_only (env : Env) (pkg : Pkg) (n : String)
    (nt : NamedType) (pi : PkgInfo) (i : Nat) (st : GState)
    (hres : pkg.resolve (.ident n) = some nt)
    (hpkg : nt.pkg = some pi)
    (hint : isInternalPkg pi.path = false)
    (hloaded : st.loadedPkgs.contains pi.path = true)
    (hexp : isNameExported nt.name = false)
    (hintf : nt.intf = some i) :
    (fillTypeAttr env pkg (.ident n) emptyAttr st).attr.Implementations =
      findImplementations [pkg] i := by
  simp only [fillTypeAttr, fillNamed, hres, hpkg, hint, hloaded]
  simp only [Bool.false_eq_true, if_false, if_true, fillNamedVisibility, hexp, hintf]
  simp

/-- Witness for the amended resolver-scope claim at the two-package
fixture. -/
theorem C4_resolver_scope_witness :
    (fillTypeAttr envLoadErr pkgIntfA (.ident "payer") emptyAttr stIntf).attr.Implementations =
      findImplementations [pkgIntfA] 7 :=
  C4_resolver_scans_resolving_package_only envLoadErr pkgIntfA "payer"
    ⟨"payer", some ⟨"m/a", "a"⟩, some 7⟩ ⟨"m/a", "a"⟩ 7 stIntf rfl rfl rfl rfl rfl rfl

@[simp] theorem isStruct_node (i : AttrInfo) (sv mk mv : Option TypeAttr)
    (ps rs : List TypeAttr) (sf : List (FieldMeta × TypeAttr)) (im : List TypeAttr) :
    (TypeAttr.node i sv mk mv ps rs sf im).IsStruct = i.IsStruct := rfl

@[simp] theorem typeName_node (i : AttrInfo) (sv mk mv : Option TypeAttr)
    (ps rs : List TypeAttr) (sf : List (FieldMeta × TypeAttr)) (im : List TypeAttr) :
    (TypeAttr.node i sv mk mv ps rs sf im).TypeName = i.TypeName := rfl

@[simp] theorem hasBuilder_node (i : AttrInfo) (sv mk mv : Option TypeAttr)
    (ps rs : List TypeAttr) (sf : List (FieldMeta × TypeAttr)) (im : List TypeAttr) :
    (TypeAttr.node i sv mk mv ps rs sf im).HasBuilder = i.HasBuilder := rfl

mutual
/-- After `fillHasBuilder`, every reachable node that carries `IsStruct`
and whose type name is in the generation set has `HasBuilder` set. -/
theorem fillHasBuilder_marks (m : List (String × List TypeAttr)) :
    (t : TypeAttr) → ∀ n ∈ allNodes (fillHasBuilder m t),
      n.IsStruct = true → inGenSet m n.TypeName = true → n.HasBuilder = true
  | .node i sv mk mv ps rs sf im => by
    intro n hn hstruct hgen
    simp only [fillHasBuilder, allNodes] at hn
    rcases List.mem_cons.mp hn with h | h
    · subst h
      simp only [isStruct_node, typeName_node, hasBuilder_node] at hstruct hgen ⊢
      by_cases hc : (i.IsStruct && inGenSet m i.TypeName) = true
      · rw [if_pos hc]
      · exfalso
        rw [if_neg hc] at hstruct hgen
        exact hc (by simp [hstruct, hgen])
    · simp only [List.mem_append] at h
      rcases h with ((((((h | h) | h) | h) | h) | h) | h)
      · exact fillHasBuilder_marksO m sv n h hstruct hgen
      · exact fillHasBuilder_marksO m mk n h hstruct hgen
      · exact fillHasBuilder_marksO m mv n h hstruct hgen
      · exact fillHasBuilder_marksL m ps n h hstruct hgen
      · exact fillHasBuilder_marksL m rs n h hstruct hgen
      · exact fillHasBuilder_marksF m sf n h hstruct hgen
      · exact fillHasBuilder_marksL m im n h hstruct hgen
termination_by structural t => t

theorem fillHasBuilder_marksO (m : List (String × List TypeAttr)) :
    (c : Option TypeAttr) → ∀ n ∈ allNodesO (fillHasBuilderO m c),
      n.IsStruct = true → inGenSet m n.TypeName = true → n.HasBuilder = true
  | none => by intro n hn; simp [fillHasBuilderO, allNodesO] at hn
  | some t => by
    intro n hn hs hg
    simp only [fillHasBuilderO, allNodesO] at hn
    exact fillHasBuilder_marks m t n hn hs hg
termination_by structural c => c

theorem fillHasBuilder_marksL (m : List (String × List TypeAttr)) :
    (cs : List TypeAttr) → ∀ n ∈ allNodesL (fillHasBuilderL m cs),
      n.IsStruct = true → inGenSet m n.TypeName = true → n.HasBuilder = true
  | [] => by intro n hn; simp [fillHasBuilderL, allNodesL] at hn
  | t :: ts => by
    intro n hn hs hg
    simp only [fillHasBuilderL, allNodesL, List.mem_append] at hn
    rcases hn with h | h
    · exact fillHasBuilder_marks m t n h hs hg
    · exact fillHasBuilder_marksL m ts n h hs hg
termination_by structural cs => cs

theorem fillHasBuilder_marksF (m : List (String × List TypeAttr)) :
    (cs : List (FieldMeta × TypeAttr)) → ∀ n ∈ allNodesF (fillHasBuilderF m cs),
      n.IsStruct = true → inGenSet m n.TypeName = true → n.HasBuilder = true
  | [] => by intro n hn; simp [fillHasBuilderF, allNodesF] at hn
  | (fm, t) :: ts => by
    intro n hn hs hg
    simp only [fillHasBuilderF, allNodesF, List.mem_append] at hn
    rcases hn with h | h
    · exact fillHasBuilder_marks m t n h hs hg
    · exact fillHasBuilder_marksF m ts n h hs hg
termination_by structural cs => cs
end

/-- C2 (amended): after the propagation pass, every node reachable from a
selected structure whose `IsStruct` flag is set and whose type name
matches a structure selected for generation this run has
`HasBuilder = true`.  The `IsStruct` condition is essential: the extractor
sets it only on generation roots and interface-implementation nodes, so a
plain named-type field reference matching a generated structure is not
marked (see the accompanying counterexample). -/
theorem C2_propagation_marks_structs (m : List (String × List TypeAttr))
    (g : String × List TypeAttr) (hg : g ∈ propagate m) (s : TypeAttr)
    (hs : s ∈ g.2) (n : TypeAttr) (hn : n ∈ allNodes s)
    (hstruct : n.IsStruct = true) (hgen : inGenSet m n.TypeName = true) :
    n.HasBuilder = true := by
  simp only [propagate, List.mem_map] at hg
  obtain ⟨g0, hg0, rfl⟩ := hg
  obtain ⟨s0, hs0, rfl⟩ := List.mem_map.mp hs
  exact fillHasBuilder_marks m s0 n hn hstruct hgen

/-! Fixture for the propagation claim: structure `S` with a field whose
type is the generated structure `T`; the field's type-attribute node
carries the name `T` but (as built by `fillTypeAttr`) no `IsStruct`
flag. -/

def fieldNodeT : TypeAttr := .node { TypeName := "T" } none none none [] [] [] []

def rootSGen : TypeAttr :=
  .node { TypeName := "S", PkgPath := "m/p", PkgName := "p", IsStruct := true }
    none none none [] [] [({ StructName := "S", FieldName := "F" }, fieldNodeT)] []

def rootTGen : TypeAttr :=
  .node { TypeName := "T", PkgPath := "m/p", PkgName := "p", IsStruct := true }
    none none none [] [] [] []

def genSetFx : List (String × List TypeAttr) := [("m/p", [rootSGen, rootTGen])]

/-- C2 counterexample: the claim (without the `IsStruct` qualification)
fails — after the propagation pass over `\x7bS, T\x7d`, the node of `S`'s field
of type `T` still has `HasBuilder = false` although its type name matches
the generated structure `T`, because `fillTypeAttr` never set `IsStruct`
on it. -/
theorem C2_counterexample_unmarked_field_node :
    ∃ g ∈ propagate genSetFx, ∃ s ∈ g.2, ∃ n ∈ allNodes s,
      inGenSet genSetFx n.TypeName = true ∧ n.HasBuilder = false := by
  refine ⟨("m/p", [fillHasBuilder genSetFx rootSGen, fillHasBuilder genSetFx rootTGen]),
    List.mem_cons_self _ _, fillHasBuilder genSetFx rootSGen, List.mem_cons_self _ _,
    fieldNodeT, ?_, rfl, rfl⟩
  exact List.Mem.tail _ (List.Mem.head _)

/-- Witness for the amended propagation claim: the selected structure `S`
itself (an `IsStruct` node whose name is in the generation set) is marked
by the pass. -/
theorem C2_propagation_witness :
    (fillHasBuilder genSetFx rootSGen).HasBuilder = true :=
  C2_propagation_marks_structs genSetFx
    ("m/p", [fillHasBuilder genSetFx rootSGen, fillHasBuilder genSetFx rootTGen])
    (List.mem_cons_self _ _)
    (fillHasBuilder genSetFx rootSGen) (List.mem_cons_self _ _)
    (fillHasBuilder genSetFx rootSGen) (List.mem_cons_self _ _) rfl rfl

mutual
/-- With fuel at least the syntactic size of the expression, the fueled
extractor completes and agrees with the structurally recursive one: the
extractor's recursion depth is bounded by its input expression. -/
theorem fillTypeAttrFuel_eq (env : Env) (pkg : Pkg) :
    (e : Expr) → ∀ (fuel : Nat), sizeOf e ≤ fuel → ∀ (a : TypeAttr) (st : GState),
      fillTypeAttrFuel env pkg fuel e a st = some (fillTypeAttr env pkg e a st)
  | .ident n => by
    intro fuel hf a st
    cases fuel with
    | zero => exfalso; simp at hf
    | succ f => simp [fillTypeAttrFuel, fillTypeAttr]
  | .other tag => by
    intro fuel hf a st
    cases fuel with
    | zero => exfalso; simp at hf
    | succ f => simp [fillTypeAttrFuel, fillTypeAttr]
  | .star x => by
    intro fuel hf a st
    cases fuel with
    | zero => exfalso; simp at hf
    | succ f =>
      have hx : sizeOf x ≤ f := by simp at hf; omega
      simp only [fillTypeAttrFuel, fillTypeAttr]
      rw [fillTypeAttrFuel_eq env pkg x f hx]
  | .array elt => by
    intro fuel hf a st
    cases fuel with
    | zero => exfalso; simp at hf
    | succ f =>
      have he : sizeOf elt ≤ f := by simp at hf; omega
      simp only [fillTypeAttrFuel, fillTypeAttr]
      rw [fillTypeAttrFuel_eq env pkg elt f he]
  | .map kE vE => by
    intro fuel hf a st
    cases fuel with
    | zero => exfalso; simp at hf
    | succ f =>
      have hk : sizeOf kE ≤ f := by simp at hf; omega
      have hv : sizeOf vE ≤ f := by simp at hf; omega
      simp only [fillTypeAttrFuel, fillTypeAttr]
      rw [fillTypeAttrFuel_eq env pkg kE f hk]
      by_cases hc : (!(fillTypeAttr env pkg kE emptyAttr st).ok ||
          (fillTypeAttr env pkg kE emptyAttr st).err.isSome) = true
      · simp [hc]
      · simp only [Bool.not_eq_true] at hc
        simp [hc, fillTypeAttrFuel_eq env pkg vE f hv]
  | .func ps rs => by
    intro fuel hf a st
    cases fuel with
    | zero => exfalso; simp at hf
    | succ f =>
      have hp : sizeOf ps ≤ f := by simp at hf; omega
      have hr : sizeOf rs ≤ f := by simp at hf; omega
      simp only [fillTypeAttrFuel, fillTypeAttr]
      rw [fillFieldListFuel_eq env pkg ps f hp]
      by_cases hc : (!(fillFieldList env pkg ps st).2.1 ||
          (fillFieldList env pkg ps st).2.2.1.isSome) = true
      · simp [hc]
      · simp only [Bool.not_eq_true] at hc
        simp [hc, fillFieldListFuel_eq env pkg rs f hr]
termination_by structural e => e

/-- Companion of the fueled agreement for the parameter/result loops. -/
theorem fillFieldListFuel_eq (env : Env) (pkg : Pkg) :
    (es : List Expr) → ∀ (fuel : Nat), sizeOf es ≤ fuel → ∀ (st : GState),
      fillFieldListFuel env pkg fuel es st = some (fillFieldList env pkg es st)
  | [] => by intro fuel hf st; simp [fillFieldListFuel, fillFieldList]
  | e :: rest => by
    intro fuel hf st
    have he : sizeOf e ≤ fuel := by simp at hf; omega
    have hrest : sizeOf rest ≤ fuel := by simp at hf; omega
    simp only [fillFieldListFuel, fillFieldList]
    rw [fillTypeAttrFuel_eq env pkg e fuel he]
    by_cases hc : (!(fillTypeAttr env pkg e emptyAttr st).ok ||
        (fillTypeAttr env pkg e emptyAttr st).err.isSome) = true
    · simp [hc]
    · simp only [Bool.not_eq_true] at hc
      simp [hc, fillFieldListFuel_eq env pkg rest fuel hrest]
termination_by structural es => es
end

mutual
/-- With fuel at least the size of the attribute tree, the fueled
propagation pass completes and agrees with the structurally recursive
one: the propagator's recursion depth is bounded by its input tree. -/
theorem fillHasBuilderFuel_eq (m : List (String × List TypeAttr)) :
    (t : TypeAttr) → ∀ (fuel : Nat), sizeOf t ≤ fuel →
      fillHasBuilderFuel m fuel t = some (fillHasBuilder m t)
  | .node i sv mk mv ps rs sf im => by
    intro fuel hf
    cases fuel with
    | zero => exfalso; simp at hf
    | succ f =>
      have h1 : sizeOf sv ≤ f := by simp at hf; omega
      have h2 : sizeOf mk ≤ f := by simp at hf; omega
      have h3 : sizeOf mv ≤ f := by simp at hf; omega
      have h4 : sizeOf ps ≤ f := by simp at hf; omega
      have h5 : sizeOf rs ≤ f := by simp at hf; omega
      have h6 : sizeOf sf ≤ f := by simp at hf; omega
      have h7 : sizeOf im ≤ f := by simp at hf; omega
      simp only [fillHasBuilderFuel, fillHasBuilder]
      rw [fillHasBuilderFuel_eqO m sv f h1, fillHasBuilderFuel_eqO m mk f h2,
        fillHasBuilderFuel_eqO m mv f h3, fillHasBuilderFuel_eqL m ps f h4,
        fillHasBuilderFuel_eqL m rs f h5, fillHasBuilderFuel_eqF m sf f h6,
        fillHasBuilderFuel_eqL m im f h7]
termination_by structural t => t

theorem fillHasBuilderFuel_eqO (m : List (String × List TypeAttr)) :
    (c : Option TypeAttr) → ∀ (fuel : Nat), sizeOf c ≤ fuel →
      fillHasBuilderFuelO m fuel c = some (fillHasBuilderO m c)
  | none => by intro fuel hf; simp [fillHasBuilderFuelO, fillHasBuilderO]
  | some t => by
    intro fuel hf
    have ht : sizeOf t ≤ fuel := by simp at hf; omega
    simp only [fillHasBuilderFuelO, fillHasBuilderO]
    rw [fillHasBuilderFuel_eq m t fuel ht]
    rfl
termination_by structural c => c

theorem fillHasBuilderFuel_eqL (m : List (String × List TypeAttr)) :
    (cs : List TypeAttr) → ∀ (fuel : Nat), sizeOf cs ≤ fuel →
      fillHasBuilderFuelL m fuel cs = some (fillHasBuilderL m cs)
  | [] => by intro fuel hf; simp [fillHasBuilderFuelL, fillHasBuilderL]
  | t :: ts => by
    intro fuel hf
    have ht : sizeOf t ≤ fuel := by simp at hf; omega
    have hts : sizeOf ts ≤ fuel := by simp at hf; omega
    simp only [fillHasBuilderFuelL, fillHasBuilderL]
    rw [fillHasBuilderFuel_eq m t fuel ht, fillHasBuilderFuel_eqL m ts fuel hts]
termination_by structural cs => cs

theorem fillHasBuilderFuel_eqF (m : List (String × List TypeAttr)) :
    (cs : List (FieldMeta × TypeAttr)) → ∀ (fuel : Nat), sizeOf cs ≤ fuel →
      fillHasBuilderFuelF m fuel cs = some (fillHasBuilderF m cs)
  | [] => by intro fuel hf; simp [fillHasBuilderFuelF, fillHasBuilderF]
  | (fm, t) :: ts => by
    intro fuel hf
    have ht : sizeOf t ≤ fuel := by simp at hf; omega
    have hts : sizeOf ts ≤ fuel := by simp at hf; omega
    simp only [fillHasBuilderFuelF, fillHasBuilderF]
    rw [fillHasBuilderFuel_eq m t fuel ht, fillHasBuilderFuel_eqF m ts fuel hts]
termination_by structural cs => cs
end

/-- C6: the recursive walks of the extractor and the propagator terminate
on every input: run with fuel equal to the syntactic size of the input,
the fueled variants never exhaust their fuel and agree with the total
functions.  Cyclic structure references are covered because the extractor
recurses only on subexpressions of the declared field type — a named
reference (even to the structure being extracted, directly or through a
pointer) is recorded as an opaque name and never expanded — and the
propagator walks finite attribute trees whose children are all freshly
allocated.  The interface resolver contains no recursion at all (a single
loop over the discovered structs; its extractor call on a struct type
spec matches no switch case and resolves to an unnamed type). -/
theorem C6_recursive_walks_terminate (env : Env) (pkg : Pkg) (e : Expr)
    (a : TypeAttr) (st : GState) (m : List (String × List TypeAttr)) (t : TypeAttr) :
    fillTypeAttrFuel env pkg (sizeOf e) e a st = some (fillTypeAttr env pkg e a st) ∧
    fillHasBuilderFuel m (sizeOf t) t = some (fillHasBuilder m t) :=
  ⟨fillTypeAttrFuel_eq env pkg e (sizeOf e) (le_refl _) a st,
   fillHasBuilderFuel_eq m t (sizeOf t) (le_refl _)⟩

theorem setPtr_idem (t : TypeAttr) : t.setPtr.setPtr = t.setPtr := by
  cases t; rfl

theorem setInfo_setPtr_comm (t : TypeAttr) (g : AttrInfo → AttrInfo)
    (hg : ∀ i, g { i with IsPtr := true } = { g i with IsPtr := true }) :
    (t.setPtr).setInfo g = (t.setInfo g).setPtr := by
  cases t
  simp only [TypeAttr.setPtr, TypeAttr.setInfo]
  rw [hg]

theorem setSliceValType_setPtr (t : TypeAttr) (c : Option TypeAttr) :
    (t.setPtr).setSliceValType c = (t.setSliceValType c).setPtr := by
  cases t; rfl

theorem setMapTypes_setPtr (t : TypeAttr) (ck cv : Option TypeAttr) :
    (t.setPtr).setMapTypes ck cv = (t.setMapTypes ck cv).setPtr := by
  cases t; rfl

theorem setFuncParamTypes_setPtr (t : TypeAttr) (cs : List TypeAttr) :
    (t.setPtr).setFuncParamTypes cs = (t.setFuncParamTypes cs).setPtr := by
  cases t; rfl

theorem setFuncResultTypes_setPtr (t : TypeAttr) (cs : List TypeAttr) :
    (t.setPtr).setFuncResultTypes cs = (t.setFuncResultTypes cs).setPtr := by
  cases t; rfl

theorem setImplementations_setPtr (t : TypeAttr) (im : List TypeAttr) :
    (t.setPtr).setImplementations im = (t.setImplementations im).setPtr := by
  cases t; rfl

/-- The visibility tail of the named-type handling only sets fields other
than the pointer flag, so it commutes with presetting the pointer flag. -/
theorem fillNamedVisibility_setPtr (pkg : Pkg) (nt : NamedType) (a : TypeAttr)
    (st : GState) :
    fillNamedVisibility pkg nt a.setPtr st =
      { fillNamedVisibility pkg nt a st with
        attr := (fillNamedVisibility pkg nt a st).attr.setPtr } := by
  unfold fillNamedVisibility
  cases hE : isNameExported nt.name
  · simp only [Bool.false_eq_true, if_false]
    cases nt.intf with
    | none => rfl
    | some i =>
      simp only []
      rw [setInfo_setPtr_comm _ _ (fun i2 => rfl), setImplementations_setPtr]
  · simp only [if_true]

/-- The named-type handling reads nothing the pointer flag influences and
never clears it, so it commutes with presetting the pointer flag. -/
theorem fillNamed_setPtr (env : Env) (pkg : Pkg) (e : Expr) (a : TypeAttr)
    (st : GState) :
    fillNamed env pkg e a.setPtr st =
      { fillNamed env pkg e a st with attr := (fillNamed env pkg e a st).attr.setPtr } := by
  unfold fillNamed
  cases hres : pkg.resolve e with
  | none => rfl
  | some nt =>
    simp only []
    rw [setInfo_setPtr_comm _ _ (fun i2 => rfl)]
    cases hpkg : nt.pkg with
    | none => exact fillNamedVisibility_setPtr pkg nt _ st
    | some pi =>
      simp only []
      rw [setInfo_setPtr_comm _ _ (fun i2 => rfl)]
      cases hInt : isInternalPkg pi.path
      · simp only [Bool.false_eq_true, if_false]
        cases hLoad : st.loadedPkgs.contains pi.path
        · simp only [Bool.false_eq_true, if_false]
          cases hl : loadPkgs env [pi.path] st with
          | mk errOpt st2 =>
            cases errOpt with
            | none => exact fillNamedVisibility_setPtr pkg nt _ st2
            | some er => rfl
        · simp only [if_true]
          exact fillNamedVisibility_setPtr pkg nt _ st
      · simp only [if_true]

/-- A named-handling result at an attribute already carrying the pointer
flag is unchanged by setting the pointer flag again. -/
theorem fillNamed_attr_stable (env : Env) (pkg : Pkg) (e : Expr) (A : TypeAttr)
    (st : GState) (hA : A.setPtr = A) :
    fillNamed env pkg e A st =
      { fillNamed env pkg e A st with attr := (fillNamed env pkg e A st).attr.setPtr } := by
  conv_lhs => rw [← hA]
  exact fillNamed_setPtr env pkg e A st

/-- The extractor threads its attribute through field assignments that all
commute with the pointer flag: extracting into an attribute with the
pointer flag preset yields exactly the extraction into the plain
attribute with the pointer flag set on its result. -/
theorem fillTypeAttr_setPtr (env : Env) (pkg : Pkg) :
    (e : Expr) → ∀ (a : TypeAttr) (st : GState),
      fillTypeAttr env pkg e a.setPtr st =
        { fillTypeAttr env pkg e a st with
          attr := (fillTypeAttr env pkg e a st).attr.setPtr }
  | .ident n => by
    intro a st
    simp only [fillTypeAttr]
    rw [setInfo_setPtr_comm _ _ (fun i2 => rfl)]
    exact fillNamed_setPtr env pkg _ _ st
  | .other tag => by
    intro a st
    simp only [fillTypeAttr]
    exact fillNamed_setPtr env pkg _ _ st
  | .star x => by
    intro a st
    have hattr : (fillTypeAttr env pkg x a.setPtr st).attr.setPtr =
        (fillTypeAttr env pkg x a.setPtr st).attr := by
      rw [fillTypeAttr_setPtr env pkg x a st]
      exact setPtr_idem _
    simp only [fillTypeAttr, setPtr_idem]
    by_cases hc : (!(fillTypeAttr env pkg x a.setPtr st).ok ||
        (fillTypeAttr env pkg x a.setPtr st).err.isSome) = true
    · simp [hc, hattr]
    · simp only [hc, if_false]
      exact fillNamed_attr_stable env pkg _ _ _ hattr
  | .array elt => by
    intro a st
    simp only [fillTypeAttr]
    rw [setInfo_setPtr_comm _ _ (fun i2 => rfl), setSliceValType_setPtr]
    by_cases hc : (!(fillTypeAttr env pkg elt emptyAttr st).ok ||
        (fillTypeAttr env pkg elt emptyAttr st).err.isSome) = true
    · simp [hc]
    · simp only [hc, if_false]
      exact fillNamed_setPtr env pkg _ _ _
  | .map kE vE => by
    intro a st
    simp only [fillTypeAttr]
    rw [setInfo_setPtr_comm _ _ (fun i2 => rfl)]
    simp only [setMapTypes_setPtr]
    by_cases hck : (!(fillTypeAttr env pkg kE emptyAttr st).ok ||
        (fillTypeAttr env pkg kE emptyAttr st).err.isSome) = true
    · rw [if_pos hck, if_pos hck]
    · rw [if_neg hck, if_neg hck]
      by_cases hcv : (!(fillTypeAttr env pkg vE emptyAttr
          (fillTypeAttr env pkg kE emptyAttr st).st).ok ||
          (fillTypeAttr env pkg vE emptyAttr
            (fillTypeAttr env pkg kE emptyAttr st).st).err.isSome) = true
      · rw [if_pos hcv, if_pos hcv]
      · rw [if_neg hcv, if_neg hcv]
        exact fillNamed_setPtr env pkg _ _ _
  | .func ps rs => by
    intro a st
    simp only [fillTypeAttr]
    rw [setInfo_setPtr_comm _ _ (fun i2 => rfl), setFuncParamTypes_setPtr]
    by_cases hcp : (!(fillFieldList env pkg ps st).2.1 ||
        (fillFieldList env pkg ps st).2.2.1.isSome) = true
    · simp [hcp]
    · simp only [hcp, if_false]
      rw [setFuncResultTypes_setPtr]
      by_cases hcr : (!(fillFieldList env pkg rs (fillFieldList env pkg ps st).2.2.2).2.1 ||
          (fillFieldList env pkg rs (fillFieldList env pkg ps st).2.2.2).2.2.1.isSome) = true
      · simp [hcr]
      · simp only [hcr, if_false]
        exact fillNamed_setPtr env pkg _ _ _
termination_by structural e => e

/-- C8: for a field declared as a pointer to T (when, as go/types
guarantees, the star expression itself resolves to an unnamed pointer
type), successful extraction produces exactly T's own attribute with the
pointer flag additionally set — the pointer adds no tree level, and all
shape flags, names, and children equal those of T's attribute — while
the registry state matches T's extraction and T's extraction succeeded. -/
theorem C8_pointer_decorates_same_node (env : Env) (pkg : Pkg) (e : Expr)
    (st : GState) (hres : pkg.resolve (.star e) = none)
    (hok : (fillTypeAttr env pkg (.star e) emptyAttr st).ok = true) :
    (fillTypeAttr env pkg (.star e) emptyAttr st).attr =
      (fillTypeAttr env pkg e emptyAttr st).attr.setPtr ∧
    (fillTypeAttr env pkg (.star e) emptyAttr st).st =
      (fillTypeAttr env pkg e emptyAttr st).st ∧
    (fillTypeAttr env pkg e emptyAttr st).ok = true := by
  have hstep : fillTypeAttr env pkg (.star e) emptyAttr st =
      (let r := { fillTypeAttr env pkg e emptyAttr st with
        attr := (fillTypeAttr env pkg e emptyAttr st).attr.setPtr };
      if !r.ok || r.err.isSome then ⟨false, none, r.attr, r.st⟩
      else fillNamed env pkg (.star e) r.attr r.st) := by
    simp only [fillTypeAttr]
    rw [fillTypeAttr_setPtr env pkg e emptyAttr st]
  rw [hstep] at hok ⊢
  simp only [] at hok ⊢
  by_cases hc : (!(fillTypeAttr env pkg e emptyAttr st).ok ||
      (fillTypeAttr env pkg e emptyAttr st).err.isSome) = true
  · simp [hc] at hok
  · simp only [hc, if_false] at hok ⊢
    simp only [Bool.or_eq_true, Bool.not_eq_true', Bool.not_eq_true] at hc
    push_neg at hc
    rw [fillNamed] at hok ⊢
    rw [hres] at hok ⊢
    exact ⟨rfl, rfl, Bool.ne_false_iff.mp hc.1⟩

/-! Fixture for the pointer-decoration witness: a package where `T`
resolves to an exported named type with no declaring package. -/

def pkgPtrFx : Pkg :=
  { id := "m/t", name := "t", structs := [],
    resolve := fun e =>
      match e with
      | .ident "T" => some ⟨"T", none, none⟩
      | _ => none }

def stPtrFx : GState := ⟨[pkgPtrFx], ["m/t"]⟩

/-- Witness for the pointer-decoration claim at the field type `*T`. -/
theorem C8_pointer_decorates_same_node_witness :
    (fillTypeAttr envLoadErr pkgPtrFx (.star (.ident "T")) emptyAttr stPtrFx).attr =
      (fillTypeAttr envLoadErr pkgPtrFx (.ident "T") emptyAttr stPtrFx).attr.setPtr ∧
    (fillTypeAttr envLoadErr pkgPtrFx (.star (.ident "T")) emptyAttr stPtrFx).st =
      (fillTypeAttr envLoadErr pkgPtrFx (.ident "T") emptyAttr stPtrFx).st ∧
    (fillTypeAttr envLoadErr pkgPtrFx (.ident "T") emptyAttr stPtrFx).ok = true :=
  C8_pointer_decorates_same_node envLoadErr pkgPtrFx (.ident "T") stPtrFx rfl rfl

/-! Lemmas about the import-reconciliation pipeline. -/

theorem insertSet_mem_iff (l : List String) (s w : String) :
    w ∈ insertSet l s ↔ w ∈ l ∨ w = s := by
  unfold insertSet
  by_cases h : l.contains s = true
  · rw [if_pos h]
    have hs : s ∈ l := List.elem_iff.mp h
    constructor
    · exact Or.inl
    · rintro (hw | rfl)
      · exact hw
      · exact hs
  · rw [if_neg h]
    simp [List.mem_append]

theorem insertSet_nodup (l : List String) (s : String) (h : l.Nodup) :
    (insertSet l s).Nodup := by
  unfold insertSet
  by_cases hc : l.contains s = true
  · rw [if_pos hc]; exact h
  · rw [if_neg hc]
    have hs : s ∉ l := fun hmem => hc (List.elem_iff.mpr hmem)
    simp [List.nodup_append, h, hs]

theorem foldl_append_eq_flatMap {α β : Type} (f : α → List β) :
    ∀ (l : List α) (acc : List β),
      l.foldl (fun a x => a ++ f x) acc = acc ++ l.flatMap f
  | [], acc => by simp
  | x :: xs, acc => by
    rw [List.foldl_cons, foldl_append_eq_flatMap f xs (acc ++ f x), List.flatMap_cons]
    simp

theorem mapInsert_not_mem (ret : List (String × String)) (p : String × String)
    (h : p.1 ∉ ret.map Prod.fst) : mapInsert ret p = ret ++ [p] := by
  unfold mapInsert
  rw [if_neg]
  intro hc
  rcases List.any_eq_true.mp hc with ⟨q, hq, hbeq⟩
  exact h (List.mem_map.mpr ⟨q, hq, beq_iff_eq.mp hbeq⟩)

theorem foldl_mapInsert_nodup :
    ∀ (L acc : List (String × String)), ((acc ++ L).map Prod.fst).Nodup →
      L.foldl mapInsert acc = acc ++ L
  | [], acc => by simp
  | p :: L, acc => by
    intro h
    have hp : p.1 ∉ acc.map Prod.fst := by
      intro hmem
      rw [List.map_append, List.map_cons] at h
      rcases List.nodup_append.mp h with ⟨h1, h2, hdisj⟩
      exact hdisj hmem (List.mem_cons_self _ _)
    rw [List.foldl_cons, mapInsert_not_mem acc p hp,
      foldl_mapInsert_nodup L (acc ++ [p]) (by simpa using h)]
    simp

theorem assignAliasesFrom_snd (key : String) :
    ∀ (i : Nat) (l : List String),
      (assignAliasesFrom key i l).map Prod.snd = l
  | _, [] => rfl
  | i, v :: vs => by
    simp only [assignAliasesFrom, List.map_cons, assignAliasesFrom_snd key (i + 1) vs]

theorem assignAliases_snd (g : String × List String) :
    (assignAliases g).map Prod.snd = g.2 :=
  assignAliasesFrom_snd g.1 0 g.2

/-- Well-formedness of the grouping map `m[segment][path]`: distinct group
keys, no duplicate member inside a group, and every member's final path
segment is its group key. -/
def GroupsWF (m : List (String × List String)) : Prop :=
  (m.map Prod.fst).Nodup ∧ ∀ g ∈ m, g.2.Nodup ∧ ∀ v ∈ g.2, pkgNameFromPath v = g.1

theorem addToGroups_wf (m : List (String × List String)) (v : String)
    (h : GroupsWF m) : GroupsWF (addToGroups m (pkgNameFromPath v) v) := by
  obtain ⟨hkeys, hmem⟩ := h
  unfold addToGroups
  by_cases hc : m.any (fun g => g.1 == pkgNameFromPath v) = true
  · rw [if_pos hc]
    constructor
    · have : (m.map (fun g => if g.1 == pkgNameFromPath v
          then (g.1, insertSet g.2 v) else g)).map Prod.fst = m.map Prod.fst := by
        rw [List.map_map]
        apply List.map_congr_left
        intro g _
        simp only [Function.comp_apply]
        split <;> rfl
      rw [this]
      exact hkeys
    · intro g' hg'
      rcases List.mem_map.mp hg' with ⟨g, hg, rfl⟩
      by_cases hgk : (g.1 == pkgNameFromPath v) = true
      · rw [if_pos hgk]
        refine ⟨insertSet_nodup _ _ (hmem g hg).1, ?_⟩
        intro w hw
        rcases (insertSet_mem_iff _ _ _).mp hw with hw2 | rfl
        · exact (hmem g hg).2 w hw2
        · exact (beq_iff_eq.mp hgk).symm
      · rw [if_neg hgk]
        exact hmem g hg
  · rw [if_neg hc]
    constructor
    · simp only [List.map_append, List.map_cons, List.map_nil]
      rw [List.nodup_append]
      refine ⟨hkeys, List.nodup_singleton _, ?_⟩
      intro k hk
      rcases List.mem_map.mp hk with ⟨g, hg, rfl⟩
      simp only [List.mem_singleton]
      intro hEq
      apply hc
      exact List.any_eq_true.mpr ⟨g, hg, beq_iff_eq.mpr hEq⟩
    · intro g' hg'
      rcases List.mem_append.mp hg' with hg2 | hg2
      · exact hmem g' hg2
      · rcases List.mem_singleton.mp hg2 with rfl
        exact ⟨List.nodup_singleton _, fun w hw => by
          rcases List.mem_singleton.mp hw with rfl; rfl⟩

theorem groupByKey_wf (paths : List String) : GroupsWF (groupByKey paths) := by
  unfold groupByKey
  have main : ∀ (l : List String) (m : List (String × List String)), GroupsWF m →
      GroupsWF (l.foldl (fun m2 v => addToGroups m2 (pkgNameFromPath v) v) m) := by
    intro l
    induction l with
    | nil => intro m h; exact h
    | cons p ps ih =>
      intro m h
      rw [List.foldl_cons]
      exact ih _ (addToGroups_wf m p h)
  exact main paths [] ⟨List.nodup_nil, by intro g hg; simp at hg⟩

theorem addToGroups_keep (m : List (String × List String)) (key v w : String)
    (h : ∃ g ∈ m, w ∈ g.2) : ∃ g ∈ addToGroups m key v, w ∈ g.2 := by
  obtain ⟨g, hg, hw⟩ := h
  unfold addToGroups
  by_cases hc : m.any (fun g2 => g2.1 == key) = true
  · rw [if_pos hc]
    refine ⟨(fun g2 => if g2.1 == key then (g2.1, insertSet g2.2 v) else g2) g,
      List.mem_map_of_mem _ hg, ?_⟩
    simp only []
    by_cases hgk : (g.1 == key) = true
    · rw [if_pos hgk]
      exact (insertSet_mem_iff _ _ _).mpr (Or.inl hw)
    · rw [if_neg hgk]
      exact hw
  · rw [if_neg hc]
    exact ⟨g, List.mem_append_left _ hg, hw⟩

theorem addToGroups_adds (m : List (String × List String)) (v : String) :
    ∃ g ∈ addToGroups m (pkgNameFromPath v) v, v ∈ g.2 := by
  unfold addToGroups
  by_cases hc : m.any (fun g2 => g2.1 == pkgNameFromPath v) = true
  · rw [if_pos hc]
    obtain ⟨g, hg, hbeq⟩ := List.any_eq_true.mp hc
    refine ⟨(g.1, insertSet g.2 v), ?_, (insertSet_mem_iff _ _ _).mpr (Or.inr rfl)⟩
    have hval : (fun g2 => if g2.1 == pkgNameFromPath v
        then (g2.1, insertSet g2.2 v) else g2) g = (g.1, insertSet g.2 v) := by
      simp only []
      rw [if_pos hbeq]
    exact hval ▸ List.mem_map_of_mem _ hg
  · rw [if_neg hc]
    exact ⟨(pkgNameFromPath v, [v]), List.mem_append_right _ (List.mem_singleton_self _),
      List.mem_singleton_self _⟩

theorem groupByKey_covers (paths : List String) (v : String) (hv : v ∈ paths) :
    ∃ g ∈ groupByKey paths, v ∈ g.2 := by
  unfold groupByKey
  have main : ∀ (l : List String) (m : List (String × List String)),
      (v ∈ l ∨ ∃ g ∈ m, v ∈ g.2) →
      ∃ g ∈ l.foldl (fun m2 w => addToGroups m2 (pkgNameFromPath w) w) m, v ∈ g.2 := by
    intro l
    induction l with
    | nil =>
      intro m h
      rcases h with h | h
      · simp at h
      · exact h
    | cons p ps ih =>
      intro m h
      rw [List.foldl_cons]
      rcases h with h | h
      · rcases List.mem_cons.mp h with rfl | h2
        · exact ih _ (Or.inr (addToGroups_adds m v))
        · exact ih _ (Or.inl h2)
      · exact ih _ (Or.inr (addToGroups_keep m (pkgNameFromPath p) p v h))
  exact main paths [] (Or.inl hv)

theorem collectImports_pairs (paths : List String) :
    collectImports paths =
      ((groupByKey paths).flatMap assignAliases).foldl mapInsert [] := by
  unfold collectImports
  rw [foldl_append_eq_flatMap]
  simp

theorem pairs_snd (paths : List String) :
    ((groupByKey paths).flatMap assignAliases).map Prod.snd =
      (groupByKey paths).flatMap (fun g => g.2) := by
  rw [List.map_flatMap]
  have hfun : (fun g => (assignAliases g).map Prod.snd) =
      (fun g : String × List String => g.2) := funext assignAliases_snd
  rw [hfun]

theorem groups_members_nodup (paths : List String) :
    ((groupByKey paths).flatMap (fun g => g.2)).Nodup := by
  obtain ⟨hkeys, hmem⟩ := groupByKey_wf paths
  rw [List.nodup_flatMap]
  refine ⟨fun g hg => (hmem g hg).1, ?_⟩
  have hks : (groupByKey paths).Pairwise (fun g g2 => g.1 ≠ g2.1) :=
    List.pairwise_map.mp hkeys
  refine List.Pairwise.imp_of_mem ?_ hks
  intro a b ha hb hne w hw1 hw2
  exact hne (((hmem a ha).2 w hw1).symm.trans ((hmem b hb).2 w hw2))

/-- C9 counterexample: three referenced identifiers whose final segments
are `models`, `models` and `models_1`.  The suffixed alias of the second
`models` member collides with the bare alias of the `models_1` group; the
later map store overwrites the earlier one and `b/models` is absent from
the resulting import table, so the mapping does not contain every
referenced identifier. -/
theorem C9_alias_overwrite_loses_identifier :
    collectImports ["a/models", "b/models", "c/models_1"] =
      [("models", "a/models"), ("models_1", "c/models_1")] ∧
    "b/models" ∉ (collectImports ["a/models", "b/models", "c/models_1"]).map Prod.snd := by
  constructor
  · rfl
  · decide

/-- C9 (amended): `collectImports` groups identifiers by final path
segment and assigns the bare segment to the first member of a group and
`segment_i` to the i-th beyond it (the pair list built by
`assignAliases` over `groupByKey`); whenever those aliases are pairwise
distinct — in particular whenever no identifier's final segment equals
another group's suffixed alias — the resulting mapping is exactly that
pair list: every referenced identifier appears exactly once and the
aliases are pairwise distinct.  (Without that proviso a later store
overwrites an earlier alias and an identifier is lost.) -/
theorem C9_collectImports_aliasing (paths : List String)
    (hnd : (((groupByKey paths).flatMap assignAliases).map Prod.fst).Nodup) :
    collectImports paths = (groupByKey paths).flatMap assignAliases ∧
    ((collectImports paths).map Prod.fst).Nodup ∧
    (∀ v ∈ paths, v ∈ (collectImports paths).map Prod.snd) ∧
    ((collectImports paths).map Prod.snd).Nodup := by
  have heq : collectImports paths = (groupByKey paths).flatMap assignAliases := by
    rw [collectImports_pairs]
    have := foldl_mapInsert_nodup ((groupByKey paths).flatMap assignAliases) []
      (by simpa using hnd)
    simpa using this
  refine ⟨heq, ?_, ?_, ?_⟩
  · rw [heq]; exact hnd
  · intro v hv
    rw [heq, pairs_snd]
    obtain ⟨g, hg, hvg⟩ := groupByKey_covers paths v hv
    exact List.mem_flatMap.mpr ⟨g, hg, hvg⟩
  · rw [heq, pairs_snd]
    exact groups_members_nodup paths

/-- Witness for the aliasing claim: two `models` packages and one `util`
package; all three identifiers appear, under pairwise distinct aliases. -/
theorem C9_collectImports_aliasing_witness :
    collectImports ["x/models", "y/models", "z/util"] =
      (groupByKey ["x/models", "y/models", "z/util"]).flatMap assignAliases ∧
    ((collectImports ["x/models", "y/models", "z/util"]).map Prod.fst).Nodup ∧
    (∀ v ∈ ["x/models", "y/models", "z/util"],
      v ∈ (collectImports ["x/models", "y/models", "z/util"]).map Prod.snd) ∧
    ((collectImports ["x/models", "y/models", "z/util"]).map Prod.snd).Nodup :=
  C9_collectImports_aliasing ["x/models", "y/models", "z/util"] (by decide)

theorem assignAliases_singleton (k v : String) :
    assignAliases (k, [v]) = [(k, v)] := rfl

theorem groupByKey_singletons (paths : List String) (hnd : paths.Nodup)
    (hinj : ∀ v ∈ paths, ∀ w ∈ paths,
      pkgNameFromPath v = pkgNameFromPath w → v = w) :
    groupByKey paths = paths.map (fun v => (pkgNameFromPath v, [v])) := by
  unfold groupByKey
  suffices main : ∀ (todo done : List String), (done ++ todo).Nodup →
      (∀ v ∈ done ++ todo, ∀ w ∈ done ++ todo,
        pkgNameFromPath v = pkgNameFromPath w → v = w) →
      todo.foldl (fun m v => addToGroups m (pkgNameFromPath v) v)
        (done.map (fun v => (pkgNameFromPath v, [v]))) =
      (done ++ todo).map (fun v => (pkgNameFromPath v, [v])) by
    have := main paths [] (by simpa using hnd) (by simpa using hinj)
    simpa using this
  intro todo
  induction todo with
  | nil =>
    intro done h1 h2
    simp
  | cons p ps ih =>
    intro done h1 h2
    rw [List.foldl_cons]
    have hstep : addToGroups (done.map (fun v => (pkgNameFromPath v, [v])))
        (pkgNameFromPath p) p =
        ((done ++ [p]).map (fun v => (pkgNameFromPath v, [v]))) := by
      unfold addToGroups
      rw [if_neg]
      · simp
      · intro hc
        obtain ⟨g, hg, hbeq⟩ := List.any_eq_true.mp hc
        obtain ⟨w, hw, rfl⟩ := List.mem_map.mp hg
        have hwp : w = p :=
          h2 w (List.mem_append_left _ hw) p
            (List.mem_append_right _ (List.mem_cons_self _ _))
            (beq_iff_eq.mp hbeq)
        subst hwp
        rcases List.nodup_append.mp h1 with ⟨_, _, hdisj⟩
        exact hdisj hw (List.mem_cons_self _ _)
    rw [hstep]
    have hre := ih (done ++ [p])
      (by simpa [List.append_assoc] using h1)
      (by
        intro v hv w hw
        exact h2 v (by simpa [List.append_assoc] using hv) w
          (by simpa [List.append_assoc] using hw))
    simpa [List.append_assoc] using hre

theorem flatMap_singleton_groups :
    ∀ (paths : List String),
      (paths.map (fun v => (pkgNameFromPath v, [v]))).flatMap assignAliases =
        paths.map (fun v => (pkgNameFromPath v, v))
  | [] => rfl
  | p :: ps => by
    simp only [List.map_cons, List.flatMap_cons, assignAliases_singleton,
      flatMap_singleton_groups ps]
    rfl

theorem collectImports_distinct_segments (paths : List String) (hnd : paths.Nodup)
    (hinj : ∀ v ∈ paths, ∀ w ∈ paths,
      pkgNameFromPath v = pkgNameFromPath w → v = w) :
    collectImports paths = paths.map (fun v => (pkgNameFromPath v, v)) := by
  rw [collectImports_pairs, groupByKey_singletons paths hnd hinj,
    flatMap_singleton_groups]
  have hkeys : ((paths.map (fun v => (pkgNameFromPath v, v))).map Prod.fst).Nodup := by
    rw [List.map_map]
    exact List.Nodup.map_on (fun v hv w hw hEq => (hinj w hw v hv hEq.symm).symm) hnd
  have := foldl_mapInsert_nodup (paths.map (fun v => (pkgNameFromPath v, v))) []
    (by simpa using hkeys)
  simpa using this

/-- C10 counterexample: the same referenced-identifier set
`\x7ba/models, b/models\x7d`, enumerated in the two orders an unordered map
iteration can produce, yields two different import tables (the bare
`models` alias goes to whichever member is seen first), so re-running
generation on an unchanged input set need not reproduce the same
output. -/
theorem C10_iteration_order_changes_aliases :
    (["a/models", "b/models"] : List String).Perm ["b/models", "a/models"] ∧
    collectImports ["a/models", "b/models"] ≠
      collectImports ["b/models", "a/models"] := by
  constructor
  · decide
  · decide

/-- C10 (amended): when no two referenced package identifiers share a
final path segment, the import table is independent of the enumeration
order of the referenced-identifier set — any two enumerations of the same
set produce the same alias-to-identifier pairs — so re-generation from an
unchanged input set is reproducible; when two identifiers do share a
final segment, which of them receives the bare alias depends on the
unspecified iteration order of the grouping maps and can differ between
runs (see the counterexample). -/
theorem C10_stable_without_segment_collisions (p1 p2 : List String)
    (hperm : p1.Perm p2) (hnd : p1.Nodup)
    (hinj : ∀ v ∈ p1, ∀ w ∈ p1,
      pkgNameFromPath v = pkgNameFromPath w → v = w) :
    (collectImports p1).Perm (collectImports p2) := by
  rw [collectImports_distinct_segments p1 hnd hinj,
    collectImports_distinct_segments p2 (hperm.nodup_iff.mp hnd)
      (fun v hv w hw => hinj v (hperm.mem_iff.mpr hv) w (hperm.mem_iff.mpr hw))]
  exact hperm.map _

/-- Witness for the stability claim at a collision-free identifier set. -/
theorem C10_stable_witness :
    (collectImports ["a/x", "b/y"]).Perm (collectImports ["b/y", "a/x"]) :=
  C10_stable_without_segment_collisions ["a/x", "b/y"] ["b/y", "a/x"]
    (by decide) (by decide) (by decide)

end GoFluent
